import Mathlib

/-!
# Verification of the jsoncons CBOR streaming reader

A shallow embedding of `basic_cbor_reader` from
`src/include/jsoncons_ext/cbor/cbor_reader.hpp`, together with theorems
checking the natural-language specification against it.

The reader's own control flow (`read`, `parse_name`, the container loops,
the tag capture, the flush rule, the nesting counter) is translated
directly from the source.  The `jsoncons::cbor::detail` helpers
(`get_uint64_value`, `get_int64_value`, `get_length`, `get_byte_string`,
`get_text_string`, `get_double`, `get_array_as_decimal_string`) and the
`bignum` class live in headers that are not part of the sources, so they
are modelled from the specification (each carries a doc comment saying
so).

The byte source is modelled as a `List Nat` of remaining bytes:
`peek` is `headD 0` (the value returned at end of input is
implementation-defined in the spec, and no theorem depends on it),
`get` is head/tail, `increment` is `tail`.  Machine integers are `Nat`
(arguments are at most 8 bytes, hence below `2^64` by construction) and
the nesting counter is `Int` so that decrements are exact.  Since the
C++ recursion can fail to terminate on malformed input (a child that
consumes no bytes inside an indefinite-length container), the model
threads explicit fuel; fuel exhaustion is a distinguished outcome,
separate from the CBOR error codes.
-/

set_option maxRecDepth 4000

namespace Cbor

/-- A byte of the input stream (values 0..255 in every run). -/
abbrev Byte := Nat

/-- `get_major_type(b) = b >> 5`, the high three bits of the initial byte
(§4.2 of the spec; `cbor_details.hpp`). `% 8` is the identity for `b < 256`. -/
def get_major_type (b : Byte) : Nat := b / 32 % 8

/-- `get_additional_information_value(b) = b & 0x1f`, the low five bits. -/
def get_additional_information_value (b : Byte) : Nat := b % 32

/-- `jsoncons::semantic_tag_type` values produced by the CBOR core (§4.6). -/
inductive semantic_tag_type where
  | none
  | epoch_time
  | date_time
  | decimal_fraction
  | bigfloat
  | undefined
deriving DecidableEq

/-- `jsoncons::byte_string_chars_format` hints (§4.6). -/
inductive byte_string_chars_format where
  | none
  | base16
  | base64
  | base64url
deriving DecidableEq

/-- Modelled from the spec: the `cbor_errc` error taxonomy of §7
(`cbor_error.hpp` is not part of the sources). -/
inductive cbor_errc where
  | unexpected_eof
  | invalid_initial_byte
  | length_required
  | unexpected_break
  | number_too_large
  | malformed
  | max_nesting_depth_exceeded
deriving DecidableEq

/-- Outcome of a model run: a CBOR error code, or exhaustion of the
model's fuel (the C++ recursion can diverge on malformed input, the
model instead stops). -/
inductive ReadErr where
  | cbor (e : cbor_errc)
  | fuel
deriving DecidableEq

/-- One `json_content_handler` event, as invoked by the reader (§4.6).
Text payloads are the raw bytes held in the C++ `std::string`, mapped
byte-for-byte to characters; the IEEE-754 value of `double_value` is
carried as the injective pair (additional-info, big-endian bit pattern)
since no claim concerns float arithmetic. -/
inductive Event where
  | uint64_value (v : Nat) (tag : semantic_tag_type)
  | int64_value (v : Int) (tag : semantic_tag_type)
  | byte_string_value (bs : List Byte) (fmt : byte_string_chars_format) (tag : semantic_tag_type)
  | string_value (s : String) (tag : semantic_tag_type)
  | bignum_value (s : String)
  | begin_array_n (len : Nat) (tag : semantic_tag_type)
  | begin_array (tag : semantic_tag_type)
  | end_array
  | begin_object_n (len : Nat) (tag : semantic_tag_type)
  | begin_object (tag : semantic_tag_type)
  | end_object
  | name (s : String)
  | bool_value (b : Bool) (tag : semantic_tag_type)
  | null_value (tag : semantic_tag_type)
  | double_value (rep : Nat × Nat) (tag : semantic_tag_type)
  | flush
deriving DecidableEq

deriving instance DecidableEq for Except

/-- `Source::peek()`: next byte without consuming.  At end of input the
spec leaves the value implementation-defined; the model returns 0. -/
def peek (l : List Byte) : Byte := l.headD 0

/-- `Source::read(n)` when exactly `n` bytes must be available:
the consumed bytes and the remainder, or `none` at end of input. -/
def takeExact (n : Nat) (l : List Byte) : Option (List Byte × List Byte) :=
  if n ≤ l.length then some (l.take n, l.drop n) else none

/-- Big-endian (network order) value of a byte sequence (§6). -/
def beNat (l : List Byte) : Nat := l.foldl (fun a b => a * 256 + b) 0

/-- Modelled from the spec: `jsoncons::cbor::detail::get_uint64_value`
(`cbor_details.hpp` is not in the sources).  §4.2: consume the initial
byte; `info < 24` is the literal argument; 24/25/26/27 read 1/2/4/8
big-endian bytes; 31 means indefinite length, an error where a value is
required (`length_required`); 28-30 are `invalid_initial_byte`. -/
def get_uint64_value (l : List Byte) : Except cbor_errc (Nat × List Byte) :=
  match l with
  | [] => .error .unexpected_eof
  | b :: r =>
    let info := b % 32
    if info < 24 then .ok (info, r)
    else if info = 31 then .error .length_required
    else if 27 < info then .error .invalid_initial_byte
    else
      match takeExact (2 ^ (info - 24)) r with
      | some (bs, rest) => .ok (beNat bs, rest)
      | none => .error .unexpected_eof

/-- Modelled from the spec: `jsoncons::cbor::detail::get_length` decodes
its argument exactly like `get_uint64_value` (§4.2 states the two rules
jointly). -/
def get_length (l : List Byte) : Except cbor_errc (Nat × List Byte) :=
  get_uint64_value l

/-- Modelled from the spec: `jsoncons::cbor::detail::get_int64_value`.
§4.2: decode the unsigned argument `u`, represent `-1 - u`; if `u`
exceeds `INT64_MAX` fail with `number_too_large`. -/
def get_int64_value (l : List Byte) : Except cbor_errc (Int × List Byte) :=
  match get_uint64_value l with
  | .error e => .error e
  | .ok (u, r) =>
    if 2 ^ 63 - 1 < u then .error .number_too_large
    else .ok (-1 - (u : Int), r)

/-- Modelled from the spec: the chunk loop of an indefinite-length
string (§4.5): each chunk must be a definite-length string of the same
major type (`malformed` otherwise); chunks are concatenated until a
break byte.  The fuel is an upper bound on the number of chunks; the
caller passes more fuel than there are input bytes, and every chunk
consumes at least its initial byte, so fuel cannot run out before the
input does. -/
def read_chunks (maj : Nat) : Nat → List Byte → Except cbor_errc (List Byte × List Byte)
  | 0, _ => .error .unexpected_eof
  | _ + 1, [] => .error .unexpected_eof
  | f + 1, b :: r =>
    if b = 0xff then .ok ([], r)
    else if get_major_type b = maj ∧ b % 32 ≠ 31 then
      match get_length (b :: r) with
      | .error e => .error e
      | .ok (len, r1) =>
        match takeExact len r1 with
        | none => .error .unexpected_eof
        | some (chunk, r2) =>
          match read_chunks maj f r2 with
          | .error e => .error e
          | .ok (restChunks, r3) => .ok (chunk ++ restChunks, r3)
    else .error .malformed

/-- Modelled from the spec: the common payload decoding of
`jsoncons::cbor::detail::get_byte_string` / `get_text_string` (§4.5):
definite length reads `len` bytes, indefinite length concatenates
same-major-type chunks until break. -/
def get_string_payload (l : List Byte) : Except cbor_errc (List Byte × List Byte) :=
  match l with
  | [] => .error .unexpected_eof
  | b :: r =>
    if b % 32 = 31 then read_chunks (get_major_type b) (r.length + 1) r
    else
      match get_length (b :: r) with
      | .error e => .error e
      | .ok (len, r1) =>
        match takeExact len r1 with
        | none => .error .unexpected_eof
        | some (payload, rest) => .ok (payload, rest)

/-- Modelled from the spec: `jsoncons::cbor::detail::get_byte_string` (§4.5). -/
def get_byte_string : List Byte → Except cbor_errc (List Byte × List Byte) :=
  get_string_payload

/-- The bytes of a C++ `std::string`, rendered character-per-byte (the
reference stores text payloads verbatim, without UTF-8 decoding; §4.5
assumes payloads are valid UTF-8 and leaves validation to the handler). -/
def bytesToString (bs : List Byte) : String := String.mk (bs.map Char.ofNat)

/-- Modelled from the spec: `jsoncons::cbor::detail::get_text_string` (§4.5). -/
def get_text_string (l : List Byte) : Except cbor_errc (String × List Byte) :=
  match get_string_payload l with
  | .error e => .error e
  | .ok (bs, r) => .ok (bytesToString bs, r)

/-- Modelled from the spec: `jsoncons::cbor::detail::get_double` (§4.2):
consume the initial byte, then 2/4/8 big-endian bytes for info 25/26/27.
The half/single/double-to-binary64 promotion is injective on
(width, bit pattern), and no claim depends on the numeric value, so the
event carries the pair (info, big-endian bit pattern). -/
def get_double (l : List Byte) : Except cbor_errc ((Nat × Nat) × List Byte) :=
  match l with
  | [] => .error .unexpected_eof
  | b :: r =>
    let info := b % 32
    let n := if info = 25 then 2 else if info = 26 then 4 else 8
    match takeExact n r with
    | none => .error .unexpected_eof
    | some (bs, rest) => .ok ((info, beNat bs), rest)

/-- Modelled from the spec: the `bignum(sign, data, size)` constructor
followed by `dump` (§4.3, §6; the arbitrary-precision integer class is
consumed through a narrow interface and is not in the sources): the
value is sign times the big-endian magnitude, rendered as an exact
decimal string. -/
def bignum_dump (sign : Int) (mag : List Byte) : String :=
  toString (sign * (beNat mag : Int))

/-- Modelled from the spec: the decimal-fraction renderer (§4.4).
`e ≥ 0` appends `e` zeros to the mantissa's decimal digits; `e < 0`
inserts a decimal point `|e|` digits from the right, left-padding with
zeros; the mantissa's sign is preserved; no elision, no exponent form. -/
def render_decimal_fraction (e m : Int) : String :=
  let sign := if m < 0 then "-" else ""
  let ds := Nat.toDigits 10 m.natAbs
  if 0 ≤ e then
    sign ++ String.mk (ds ++ List.replicate e.toNat '0')
  else
    let k := (-e).toNat
    let padded := if ds.length ≤ k then List.replicate (k + 1 - ds.length) '0' ++ ds else ds
    sign ++ String.mk (padded.take (padded.length - k)) ++ "." ++
      String.mk (padded.drop (padded.length - k))

/-- Modelled from the spec: decoding of one decimal-fraction child
(§4.5 "collect exactly two children as integers"): an unsigned or a
negative integer item; anything else is `malformed`. -/
def parse_df_int (l : List Byte) : Except cbor_errc (Int × List Byte) :=
  if get_major_type (peek l) = 0 then
    match get_uint64_value l with
    | .error e => .error e
    | .ok (u, r) => .ok ((u : Int), r)
  else if get_major_type (peek l) = 1 then get_int64_value l
  else .error .malformed

/-- Modelled from the spec:
`jsoncons::cbor::detail::get_array_as_decimal_string` (§4.4, §4.5, §7):
consume the 2-element array (definite length 2, or indefinite with
exactly two children before the break; any other length is `malformed`),
collect the exponent and mantissa as integers, and render the decimal
fraction. -/
def get_array_as_decimal_string (l : List Byte) : Except cbor_errc (String × List Byte) :=
  match l with
  | [] => .error .unexpected_eof
  | b :: r =>
    if get_major_type b ≠ 4 then .error .malformed
    else if b % 32 = 31 then
      match parse_df_int r with
      | .error e => .error e
      | .ok (e1, r1) =>
        match parse_df_int r1 with
        | .error e => .error e
        | .ok (m1, r2) =>
          match r2 with
          | 0xff :: r3 => .ok (render_decimal_fraction e1 m1, r3)
          | _ => .error .malformed
    else
      match get_length (b :: r) with
      | .error e => .error e
      | .ok (len, r1) =>
        if len ≠ 2 then .error .malformed
        else
          match parse_df_int r1 with
          | .error e => .error e
          | .ok (e1, r2) =>
            match parse_df_int r2 with
            | .error e => .error e
            | .ok (m1, r3) => .ok (render_decimal_fraction e1 m1, r3)

/-- The observable result of one `read` call: the handler events emitted
(in order), the remaining input, the final value of `nesting_depth_`,
and the outcome (`none` = success).  After an error the source position
is unspecified (§7: "the reader's state is not defined for further
reads"); the model reports the position at the failing step's entry. -/
structure ReadResult where
  events : List Event
  rest : List Byte
  depth : Int
  err : Option ReadErr
deriving DecidableEq

/-- Result of `parse_name`. -/
structure NameResult where
  events : List Event
  rest : List Byte
  err : Option ReadErr
deriving DecidableEq

/-- `basic_cbor_reader::parse_name`: if the next item is a text string,
decode it and emit a `name` event; otherwise do nothing (the else branch
of the source is entirely commented out). -/
def parse_name (l : List Byte) : NameResult :=
  if get_major_type (peek l) = 3 then
    match get_text_string l with
    | .error e => ⟨[], l, some (.cbor e)⟩
    | .ok (s, r) => ⟨[.name s], r, none⟩
  else ⟨[], l, none⟩

/-- The trailing flush rule of `basic_cbor_reader::read`: on success,
`if (nesting_depth_ == 0) handler_.flush();`; error returns skip it. -/
def flush_if_done (r : ReadResult) : ReadResult :=
  match r.err with
  | some _ => r
  | none =>
    if r.depth = 0 then ⟨r.events ++ [.flush], r.rest, r.depth, none⟩ else r

mutual

/-- The shared tail of the four container branches of `read`:
`++nesting_depth_` then the begin event `b` happen before the body `r`;
on success the end event `en` is emitted and `--nesting_depth_` runs
(and for an indefinite container, `consumeBreak = true`, the terminating
0xff is consumed by `source_.increment()`); on error the early `return`
leaves the depth incremented and emits nothing further. -/
def cont_result (b en : Event) (consumeBreak : Bool) (r : ReadResult) : ReadResult :=
  match r.err with
  | some _ => ⟨b :: r.events, r.rest, r.depth, r.err⟩
  | none =>
    ⟨(b :: r.events) ++ [en], if consumeBreak then r.rest.tail else r.rest, r.depth - 1, none⟩

/-- `basic_cbor_reader::read(ec)`: tag capture, dispatch on the next
item's major type, then the flush rule. -/
def read : Nat → Int → List Byte → ReadResult
  | 0, depth, l => ⟨[], l, depth, some .fuel⟩
  | fuel + 1, depth, l => flush_if_done (read_core fuel depth l)

/-- The body of `read` before the flush rule: the tag capture
(`has_cbor_tag`/`cbor_tag`, lines 55-68: one `source_.get(c)` and
`cbor_tag = get_additional_information_value(c)`) followed by the
dispatch switch. -/
def read_core : Nat → Int → List Byte → ReadResult
  | 0, depth, l => ⟨[], l, depth, some .fuel⟩
  | fuel + 1, depth, l =>
    if get_major_type (peek l) = 6 then
      match l with
      | [] => ⟨[], l, depth, some (.cbor .unexpected_eof)⟩
      | c :: r1 => dispatch fuel depth r1 true (c % 32)
    else dispatch fuel depth l false 0

/-- The unsigned-integer case of the dispatch switch. -/
def uint64_result (depth : Int) (l : List Byte) (has_tag : Bool) (cbor_tag : Nat) : ReadResult :=
  match get_uint64_value l with
  | .error e => ⟨[], l, depth, some (.cbor e)⟩
  | .ok (v, r) =>
    ⟨[.uint64_value v (if has_tag ∧ cbor_tag = 1 then .epoch_time else .none)],
      r, depth, none⟩

/-- The negative-integer case of the dispatch switch. -/
def int64_result (depth : Int) (l : List Byte) (has_tag : Bool) (cbor_tag : Nat) : ReadResult :=
  match get_int64_value l with
  | .error e => ⟨[], l, depth, some (.cbor e)⟩
  | .ok (v, r) =>
    ⟨[.int64_value v (if has_tag ∧ cbor_tag = 1 then .epoch_time else .none)],
      r, depth, none⟩

/-- The byte-string case of the dispatch switch: the `cbor_tag` switch
selects bignum rendering (tags 2/3) or a display hint (tags 21/22/23). -/
def byte_string_result (depth : Int) (l : List Byte) (has_tag : Bool) (cbor_tag : Nat) :
    ReadResult :=
  match get_byte_string l with
  | .error e => ⟨[], l, depth, some (.cbor e)⟩
  | .ok (v, r) =>
    if has_tag ∧ cbor_tag = 2 then
      ⟨[.bignum_value (bignum_dump 1 v)], r, depth, none⟩
    else if has_tag ∧ cbor_tag = 3 then
      ⟨[.bignum_value (bignum_dump (-1) v)], r, depth, none⟩
    else if has_tag ∧ cbor_tag = 21 then
      ⟨[.byte_string_value v .base64url .none], r, depth, none⟩
    else if has_tag ∧ cbor_tag = 22 then
      ⟨[.byte_string_value v .base64 .none], r, depth, none⟩
    else if has_tag ∧ cbor_tag = 23 then
      ⟨[.byte_string_value v .base16 .none], r, depth, none⟩
    else ⟨[.byte_string_value v .none .none], r, depth, none⟩

/-- The text-string case of the dispatch switch. -/
def text_string_result (depth : Int) (l : List Byte) (has_tag : Bool) (cbor_tag : Nat) :
    ReadResult :=
  match get_text_string l with
  | .error e => ⟨[], l, depth, some (.cbor e)⟩
  | .ok (s, r) =>
    ⟨[.string_value s (if has_tag ∧ cbor_tag = 0 then .date_time else .none)],
      r, depth, none⟩

/-- The tag-4 path of the array case: the whole 2-element array is
replaced by a single `string_value(s, decimal_fraction)` event. -/
def decimal_fraction_result (depth : Int) (l : List Byte) : ReadResult :=
  match get_array_as_decimal_string l with
  | .error e => ⟨[], l, depth, some (.cbor e)⟩
  | .ok (s, r) => ⟨[.string_value s .decimal_fraction], r, depth, none⟩

/-- The major-type-7 case of the dispatch switch: the `switch (info)`
with cases 20/21/22/23 (constants, consume one byte), 25/26/27 (floats)
and no default, so any other info value falls through doing nothing. -/
def simple_result (depth : Int) (l : List Byte) (has_tag : Bool) (cbor_tag : Nat) : ReadResult :=
  if get_additional_information_value (peek l) = 20 then
    ⟨[.bool_value false .none], l.tail, depth, none⟩
  else if get_additional_information_value (peek l) = 21 then
    ⟨[.bool_value true .none], l.tail, depth, none⟩
  else if get_additional_information_value (peek l) = 22 then
    ⟨[.null_value .none], l.tail, depth, none⟩
  else if get_additional_information_value (peek l) = 23 then
    ⟨[.null_value .undefined], l.tail, depth, none⟩
  else if get_additional_information_value (peek l) = 25 ∨
      get_additional_information_value (peek l) = 26 ∨
      get_additional_information_value (peek l) = 27 then
    match get_double l with
    | .error e => ⟨[], l, depth, some (.cbor e)⟩
    | .ok (rep, r) =>
      ⟨[.double_value rep (if has_tag ∧ cbor_tag = 1 then .epoch_time else .none)],
        r, depth, none⟩
  else ⟨[], l, depth, none⟩

/-- The `switch (get_major_type(source_.peek()))` of `read`.  The C++
computes `tag` (`decimal_fraction` when `has_cbor_tag && cbor_tag == 4`,
`bigfloat` when `== 5`, `none` otherwise) and then tests
`tag == decimal_fraction`; here that test is inlined as
`has_tag ∧ cbor_tag = 4`, and the array branch passes the equivalent
`bigfloat`-or-`none` expression to its begin event. -/
def dispatch : Nat → Int → List Byte → Bool → Nat → ReadResult
  | 0, depth, l, _, _ => ⟨[], l, depth, some .fuel⟩
  | fuel + 1, depth, l, has_tag, cbor_tag =>
    if get_major_type (peek l) = 0 then uint64_result depth l has_tag cbor_tag
    else if get_major_type (peek l) = 1 then int64_result depth l has_tag cbor_tag
    else if get_major_type (peek l) = 2 then byte_string_result depth l has_tag cbor_tag
    else if get_major_type (peek l) = 3 then text_string_result depth l has_tag cbor_tag
    else if get_major_type (peek l) = 4 then
      if has_tag ∧ cbor_tag = 4 then decimal_fraction_result depth l
      else if get_additional_information_value (peek l) = 31 then
        cont_result (.begin_array (if has_tag ∧ cbor_tag = 5 then .bigfloat else .none))
          .end_array true (read_indefinite_array_items fuel (depth + 1) l.tail)
      else
        match get_length l with
        | .error e => ⟨[], l, depth, some (.cbor e)⟩
        | .ok (len, r1) =>
          cont_result (.begin_array_n len (if has_tag ∧ cbor_tag = 5 then .bigfloat else .none))
            .end_array false (read_definite_array_items fuel len (depth + 1) r1)
    else if get_major_type (peek l) = 5 then
      if get_additional_information_value (peek l) = 31 then
        cont_result (.begin_object .none) .end_object true
          (read_indefinite_map_items fuel (depth + 1) l.tail)
      else
        match get_length l with
        | .error e => ⟨[], l, depth, some (.cbor e)⟩
        | .ok (len, r1) =>
          cont_result (.begin_object_n len .none) .end_object false
            (read_definite_map_items fuel len (depth + 1) r1)
    else if get_major_type (peek l) = 6 then
      ⟨[], l, depth, none⟩
    else simple_result depth l has_tag cbor_tag

/-- The definite-length array loop: `for (i = 0; i < len; ++i) read(ec)`. -/
def read_definite_array_items : Nat → Nat → Int → List Byte → ReadResult
  | 0, _, depth, l => ⟨[], l, depth, some .fuel⟩
  | _ + 1, 0, depth, l => ⟨[], l, depth, none⟩
  | fuel + 1, n + 1, depth, l =>
    let r := read fuel depth l
    match r.err with
    | some _ => r
    | none =>
      let r2 := read_definite_array_items fuel n r.depth r.rest
      ⟨r.events ++ r2.events, r2.rest, r2.depth, r2.err⟩

/-- The indefinite-length array loop: `while (peek() != 0xff)` read a
child, failing with `unexpected_eof` if the source is exhausted after
the child. -/
def read_indefinite_array_items : Nat → Int → List Byte → ReadResult
  | 0, depth, l => ⟨[], l, depth, some .fuel⟩
  | fuel + 1, depth, l =>
    if peek l = 0xff then ⟨[], l, depth, none⟩
    else
      let r := read fuel depth l
      match r.err with
      | some _ => r
      | none =>
        if r.rest.isEmpty then ⟨r.events, r.rest, r.depth, some (.cbor .unexpected_eof)⟩
        else
          let r2 := read_indefinite_array_items fuel r.depth r.rest
          ⟨r.events ++ r2.events, r2.rest, r2.depth, r2.err⟩

/-- The definite-length map loop: `len` times `parse_name` then `read`. -/
def read_definite_map_items : Nat → Nat → Int → List Byte → ReadResult
  | 0, _, depth, l => ⟨[], l, depth, some .fuel⟩
  | _ + 1, 0, depth, l => ⟨[], l, depth, none⟩
  | fuel + 1, n + 1, depth, l =>
    let pn := parse_name l
    match pn.err with
    | some e => ⟨pn.events, pn.rest, depth, some e⟩
    | none =>
      let r := read fuel depth pn.rest
      match r.err with
      | some _ => ⟨pn.events ++ r.events, r.rest, r.depth, r.err⟩
      | none =>
        let r2 := read_definite_map_items fuel n r.depth r.rest
        ⟨(pn.events ++ r.events) ++ r2.events, r2.rest, r2.depth, r2.err⟩

/-- The indefinite-length map loop: `while (peek() != 0xff)` run
`parse_name` then `read`. -/
def read_indefinite_map_items : Nat → Int → List Byte → ReadResult
  | 0, depth, l => ⟨[], l, depth, some .fuel⟩
  | fuel + 1, depth, l =>
    if peek l = 0xff then ⟨[], l, depth, none⟩
    else
      let pn := parse_name l
      match pn.err with
      | some e => ⟨pn.events, pn.rest, depth, some e⟩
      | none =>
        let r := read fuel depth pn.rest
        match r.err with
        | some _ => ⟨pn.events ++ r.events, r.rest, r.depth, r.err⟩
        | none =>
          let r2 := read_indefinite_map_items fuel r.depth r.rest
          ⟨(pn.events ++ r.events) ++ r2.events, r2.rest, r2.depth, r2.err⟩

end

/-- The serializing-context state of `basic_cbor_reader`: the `column_`
member.  `line_number()` is the constant 1. -/
structure ReaderCtx where
  column_ : Nat
deriving DecidableEq

/-- The constructor `basic_cbor_reader(...)`: `column_(1)`. -/
def basic_cbor_reader_init : ReaderCtx := ⟨1⟩

/-- `basic_cbor_reader::line_number() const { return 1; }` -/
def line_number (_ : ReaderCtx) : Nat := 1

/-- `basic_cbor_reader::column_number() const { return column_; }` -/
def column_number (ctx : ReaderCtx) : Nat := ctx.column_

/-- A full `read` call on the reader object: the body of `read` contains
no assignment to `column_`, so the context is returned unchanged. -/
def read_full (fuel : Nat) (ctx : ReaderCtx) (depth : Int) (l : List Byte) :
    ReaderCtx × ReadResult :=
  (ctx, read fuel depth l)

/-- The canonical 8-byte big-endian encoding of a value `u < 2^64`, used
to quantify theorems over arbitrary integer arguments. -/
def be8 (u : Nat) : List Byte :=
  [u / 2 ^ 56 % 256, u / 2 ^ 48 % 256, u / 2 ^ 40 % 256, u / 2 ^ 32 % 256,
    u / 2 ^ 24 % 256, u / 2 ^ 16 % 256, u / 2 ^ 8 % 256, u % 256]

/-- A canonical CBOR encoding of an integer item: major type 0 with an
8-byte argument for `v ≥ 0`, major type 1 encoding `-1-v` otherwise. -/
def encodeInt (v : Int) : List Byte :=
  if 0 ≤ v then 0x1b :: be8 v.toNat else 0x3b :: be8 (-1 - v).toNat

/-- Does an event open a container (`begin_array`/`begin_object`,
definite or indefinite)?  These are exactly the events emitted right
after `++nesting_depth_` in the source. -/
def isBeginEvent : Event → Bool
  | .begin_array _ => true
  | .begin_array_n _ _ => true
  | .begin_object _ => true
  | .begin_object_n _ _ => true
  | _ => false

/-- Does an event close a container (`end_array`/`end_object`)?  These
are exactly the events emitted right before `--nesting_depth_`. -/
def isEndEvent : Event → Bool
  | .end_array => true
  | .end_object => true
  | _ => false

/-- Number of container-opening events in a trace. -/
def nBegins (es : List Event) : Nat := es.countP isBeginEvent

/-- Number of container-closing events in a trace. -/
def nEnds (es : List Event) : Nat := es.countP isEndEvent

/-- Number of `flush` events in a trace. -/
def nFlush (es : List Event) : Nat := es.count .flush

/-- The bookkeeping invariant of one call at entry depth `d`: closes
never outnumber opens, the final depth is the entry depth plus the net
number of opens, and a successful call is balanced. -/
def Bal (d : Int) (ev : List Event) (dep : Int) (err : Option ReadErr) : Prop :=
  nEnds ev ≤ nBegins ev ∧
  dep = d + (nBegins ev : Int) - (nEnds ev : Int) ∧
  (err = none → nBegins ev = nEnds ev)

/-- `Bal` for a whole `ReadResult`. -/
abbrev BalR (d : Int) (r : ReadResult) : Prop := Bal d r.events r.depth r.err

example : read 3 0 [0x18, 0x7b] =
    ⟨[.uint64_value 123 .none, .flush], [], 0, none⟩ := by decide

example : read 3 0 [0x38, 0x63] =
    ⟨[.int64_value (-100) .none, .flush], [], 0, none⟩ := by decide

example : read 3 0 [0xc1, 0x1a, 0x51, 0x4b, 0x67, 0xb0] =
    ⟨[.uint64_value 1363896240 .epoch_time, .flush], [], 0, none⟩ := by decide

example : read 9 0 [0x9f, 0x01, 0x02, 0x03, 0xff] =
    ⟨[.begin_array .none, .uint64_value 1 .none, .uint64_value 2 .none,
      .uint64_value 3 .none, .end_array, .flush], [], 0, none⟩ := by decide

example : read 9 0 [0xa2, 0x61, 0x61, 0x01, 0x61, 0x62, 0x02] =
    ⟨[.begin_object_n 2 .none, .name "a", .uint64_value 1 .none,
      .name "b", .uint64_value 2 .none, .end_object, .flush], [], 0, none⟩ := by decide

example : (read 3 0 [0x19, 0x01]).err = some (.cbor .unexpected_eof) := by decide


lemma bal_zero_events {d : Int} {ev : List Event} (hB : nBegins ev = 0)
    (hE : nEnds ev = 0) (err : Option ReadErr) : Bal d ev d err := by
  refine ⟨by omega, by omega, fun _ => by omega⟩

lemma bal_nil (d : Int) (err : Option ReadErr) : Bal d [] d err :=
  bal_zero_events (by simp [nBegins]) (by simp [nEnds]) err

lemma bal_single (d : Int) (e : Event) (hB : isBeginEvent e = false)
    (hE : isEndEvent e = false) : Bal d [e] d none :=
  bal_zero_events (by simp [nBegins, hB]) (by simp [nEnds, hE]) none

lemma bal_relax {d dep : Int} {ev : List Event} (h : Bal d ev dep none)
    (err : Option ReadErr) : Bal d ev dep err :=
  ⟨h.1, h.2.1, fun _ => h.2.2 rfl⟩

lemma bal_seq {d dep1 : Int} {ev1 : List Event} (h1 : Bal d ev1 dep1 none)
    {ev2 : List Event} {dep2 : Int} {err2 : Option ReadErr}
    (h2 : Bal dep1 ev2 dep2 err2) : Bal d (ev1 ++ ev2) dep2 err2 := by
  obtain ⟨a1, a2, a3⟩ := h1
  obtain ⟨b1, b2, b3⟩ := h2
  have a4 := a3 rfl
  refine ⟨?_, ?_, ?_⟩ <;>
    simp only [nBegins, nEnds, List.countP_append] at *
  · omega
  · omega
  · intro he
    have := b3 he
    omega

lemma bal_prefix_zero {ev0 : List Event} (h0B : nBegins ev0 = 0) (h0E : nEnds ev0 = 0)
    {d dep : Int} {ev : List Event} {err : Option ReadErr}
    (h : Bal d ev dep err) : Bal d (ev0 ++ ev) dep err := by
  obtain ⟨a1, a2, a3⟩ := h
  refine ⟨?_, ?_, ?_⟩ <;>
    simp only [nBegins, nEnds, List.countP_append] at *
  · omega
  · omega
  · intro he
    have := a3 he
    omega

lemma nBegins_cons (e : Event) (ev : List Event) :
    nBegins (e :: ev) = nBegins ev + (if isBeginEvent e then 1 else 0) := by
  simp [nBegins, List.countP_cons]

lemma nEnds_cons (e : Event) (ev : List Event) :
    nEnds (e :: ev) = nEnds ev + (if isEndEvent e then 1 else 0) := by
  simp [nEnds, List.countP_cons]

lemma nBegins_append (a b : List Event) : nBegins (a ++ b) = nBegins a + nBegins b := by
  simp [nBegins, List.countP_append]

lemma nEnds_append (a b : List Event) : nEnds (a ++ b) = nEnds a + nEnds b := by
  simp [nEnds, List.countP_append]

lemma nBegins_nil : nBegins [] = 0 := rfl

lemma nEnds_nil : nEnds [] = 0 := rfl

lemma bal_cont_ok (b en : Event) (hbB : isBeginEvent b = true) (hbE : isEndEvent b = false)
    (heB : isBeginEvent en = false) (heE : isEndEvent en = true)
    {d : Int} {r : ReadResult} (h : BalR (d + 1) r) (he : r.err = none) :
    Bal d ((b :: r.events) ++ [en]) (r.depth - 1) none := by
  obtain ⟨a1, a2, a3⟩ := h
  have a4 := a3 he
  refine ⟨?_, ?_, fun _ => ?_⟩ <;>
  · simp [nBegins_append, nEnds_append, nBegins_cons, nEnds_cons, nBegins_nil, nEnds_nil,
      hbB, hbE, heB, heE]
    omega

lemma bal_cont_err (b : Event) (hbB : isBeginEvent b = true) (hbE : isEndEvent b = false)
    {d : Int} {r : ReadResult} {e : ReadErr} (h : BalR (d + 1) r) (he : r.err = some e) :
    Bal d (b :: r.events) r.depth r.err := by
  obtain ⟨a1, a2, a3⟩ := h
  rw [he]
  refine ⟨?_, ?_, fun hx => nomatch hx⟩ <;>
  · simp [nBegins_cons, nEnds_cons, hbB, hbE]
    omega

lemma bal_cont_result (b en : Event) (hbB : isBeginEvent b = true) (hbE : isEndEvent b = false)
    (heB : isBeginEvent en = false) (heE : isEndEvent en = true) (cb : Bool)
    {d : Int} {r : ReadResult} (h : BalR (d + 1) r) :
    BalR d (cont_result b en cb r) := by
  obtain ⟨ev, rest, dep, err⟩ := r
  cases err with
  | some e => exact bal_cont_err b hbB hbE h rfl
  | none => exact bal_cont_ok b en hbB hbE heB heE h rfl

lemma bal_uint64_result (d : Int) (l : List Byte) (ht : Bool) (tg : Nat) :
    BalR d (uint64_result d l ht tg) := by
  unfold uint64_result
  split
  · exact bal_nil _ _
  · exact bal_single _ _ rfl rfl

lemma bal_int64_result (d : Int) (l : List Byte) (ht : Bool) (tg : Nat) :
    BalR d (int64_result d l ht tg) := by
  unfold int64_result
  split
  · exact bal_nil _ _
  · exact bal_single _ _ rfl rfl

lemma bal_byte_string_result (d : Int) (l : List Byte) (ht : Bool) (tg : Nat) :
    BalR d (byte_string_result d l ht tg) := by
  unfold byte_string_result
  split
  · exact bal_nil _ _
  · split
    · exact bal_single _ _ rfl rfl
    · split
      · exact bal_single _ _ rfl rfl
      · split
        · exact bal_single _ _ rfl rfl
        · split
          · exact bal_single _ _ rfl rfl
          · split
            · exact bal_single _ _ rfl rfl
            · exact bal_single _ _ rfl rfl

lemma bal_text_string_result (d : Int) (l : List Byte) (ht : Bool) (tg : Nat) :
    BalR d (text_string_result d l ht tg) := by
  unfold text_string_result
  split
  · exact bal_nil _ _
  · exact bal_single _ _ rfl rfl

lemma bal_decimal_fraction_result (d : Int) (l : List Byte) :
    BalR d (decimal_fraction_result d l) := by
  unfold decimal_fraction_result
  split
  · exact bal_nil _ _
  · exact bal_single _ _ rfl rfl

lemma bal_simple_result (d : Int) (l : List Byte) (ht : Bool) (tg : Nat) :
    BalR d (simple_result d l ht tg) := by
  unfold simple_result
  split
  · exact bal_single _ _ rfl rfl
  · split
    · exact bal_single _ _ rfl rfl
    · split
      · exact bal_single _ _ rfl rfl
      · split
        · exact bal_single _ _ rfl rfl
        · split
          · split
            · exact bal_nil _ _
            · exact bal_single _ _ rfl rfl
          · exact bal_nil _ _

lemma parse_name_counts (l : List Byte) :
    nBegins (parse_name l).events = 0 ∧ nEnds (parse_name l).events = 0 ∧
    nFlush (parse_name l).events = 0 := by
  unfold parse_name
  split
  · split <;> simp [nBegins, nEnds, nFlush, isBeginEvent, isEndEvent]
  · simp [nBegins, nEnds, nFlush]

lemma balR_to_none {d : Int} {r : ReadResult} (h : BalR d r) (he : r.err = none) :
    Bal d r.events r.depth none :=
  ⟨h.1, h.2.1, fun _ => h.2.2 he⟩

lemma bal_flush_if_done {d : Int} {r : ReadResult} (h : BalR d r) :
    BalR d (flush_if_done r) := by
  obtain ⟨ev, rest, dep, err⟩ := r
  obtain ⟨a1, a2, a3⟩ := h
  cases err with
  | some e => exact ⟨a1, a2, a3⟩
  | none =>
    have a4 := a3 rfl
    simp only [flush_if_done]
    split
    · refine ⟨?_, ?_, fun _ => ?_⟩ <;>
      · simp [nBegins_append, nEnds_append, nBegins_cons, nEnds_cons, nBegins_nil, nEnds_nil,
          isBeginEvent, isEndEvent] at a1 a2 a4 ⊢
        omega
    · exact ⟨a1, a2, a3⟩

/-- The joint bookkeeping invariant for all functions of the reader, by
induction on fuel: container-close events never outnumber container-open
events, the net count of opens determines the final nesting depth, and a
successful call is exactly balanced. -/
lemma bal_all (fuel : Nat) :
    (∀ d l, BalR d (read fuel d l)) ∧
    (∀ d l, BalR d (read_core fuel d l)) ∧
    (∀ d l ht tg, BalR d (dispatch fuel d l ht tg)) ∧
    (∀ n d l, BalR d (read_definite_array_items fuel n d l)) ∧
    (∀ d l, BalR d (read_indefinite_array_items fuel d l)) ∧
    (∀ n d l, BalR d (read_definite_map_items fuel n d l)) ∧
    (∀ d l, BalR d (read_indefinite_map_items fuel d l)) := by
  induction fuel with
  | zero =>
    refine ⟨fun d l => ?_, fun d l => ?_, fun d l ht tg => ?_, fun n d l => ?_,
      fun d l => ?_, fun n d l => ?_, fun d l => ?_⟩ <;>
    · simp only [read, read_core, dispatch, read_definite_array_items,
        read_indefinite_array_items, read_definite_map_items, read_indefinite_map_items]
      exact bal_nil _ _
  | succ f ih =>
    obtain ⟨ihR, ihC, ihD, ihAN, ihAI, ihMN, ihMI⟩ := ih
    refine ⟨?_, ?_, ?_, ?_, ?_, ?_, ?_⟩
    · intro d l
      simp only [read]
      exact bal_flush_if_done (ihC d l)
    · intro d l
      simp only [read_core]
      split
      · cases l with
        | nil => exact bal_nil _ _
        | cons c r1 => exact ihD d r1 true (c % 32)
      · exact ihD d l false 0
    · intro d l ht tg
      unfold dispatch
      split
      · exact bal_uint64_result d l ht tg
      · split
        · exact bal_int64_result d l ht tg
        · split
          · exact bal_byte_string_result d l ht tg
          · split
            · exact bal_text_string_result d l ht tg
            · split
              · split
                · exact bal_decimal_fraction_result d l
                · split
                  · exact bal_cont_result (.begin_array _) .end_array rfl rfl rfl rfl _ (ihAI _ _)
                  · split
                    · exact bal_nil _ _
                    · exact bal_cont_result (.begin_array_n _ _) .end_array rfl rfl rfl rfl _
                        (ihAN _ _ _)
              · split
                · split
                  · exact bal_cont_result (.begin_object _) .end_object rfl rfl rfl rfl _ (ihMI _ _)
                  · split
                    · exact bal_nil _ _
                    · exact bal_cont_result (.begin_object_n _ _) .end_object rfl rfl rfl rfl _
                        (ihMN _ _ _)
                · split
                  · exact bal_nil _ _
                  · exact bal_simple_result d l ht tg
    · intro n d l
      cases n with
      | zero =>
        simp only [read_definite_array_items]
        exact bal_nil _ _
      | succ m =>
        simp only [read_definite_array_items]
        split
        · exact ihR d l
        · rename_i heq
          exact bal_seq (balR_to_none (ihR d l) heq) (ihAN m _ _)
    · intro d l
      simp only [read_indefinite_array_items]
      split
      · exact bal_nil _ _
      · split
        · exact ihR d l
        · rename_i heq
          split
          · exact bal_relax (balR_to_none (ihR d l) heq) _
          · exact bal_seq (balR_to_none (ihR d l) heq) (ihAI _ _)
    · intro n d l
      cases n with
      | zero =>
        simp only [read_definite_map_items]
        exact bal_nil _ _
      | succ m =>
        simp only [read_definite_map_items]
        obtain ⟨hc1, hc2, hc3⟩ := parse_name_counts l
        split
        · exact bal_zero_events hc1 hc2 _
        · split
          · exact bal_prefix_zero hc1 hc2 (ihR d _)
          · rename_i heq2
            exact bal_seq (bal_prefix_zero hc1 hc2 (balR_to_none (ihR d (parse_name l).rest) heq2))
              (ihMN m _ _)
    · intro d l
      simp only [read_indefinite_map_items]
      obtain ⟨hc1, hc2, hc3⟩ := parse_name_counts l
      split
      · exact bal_nil _ _
      · split
        · exact bal_zero_events hc1 hc2 _
        · split
          · exact bal_prefix_zero hc1 hc2 (ihR d _)
          · rename_i heq2
            exact bal_seq (bal_prefix_zero hc1 hc2 (balR_to_none (ihR d (parse_name l).rest) heq2))
              (ihMI _ _)

lemma read_succ (f : Nat) (d : Int) (l : List Byte) :
    read (f + 1) d l = flush_if_done (read_core f d l) := by
  simp only [read]

lemma flush_if_done_err (r : ReadResult) : (flush_if_done r).err = r.err := by
  obtain ⟨ev, rest, dep, err⟩ := r
  cases err with
  | some e => rfl
  | none =>
    simp only [flush_if_done]
    split <;> rfl

lemma flush_if_done_events (r : ReadResult) :
    (flush_if_done r).events =
      r.events ++ (if r.err = none ∧ r.depth = 0 then [Event.flush] else []) := by
  obtain ⟨ev, rest, dep, err⟩ := r
  cases err with
  | some e => simp [flush_if_done]
  | none =>
    simp only [flush_if_done]
    split <;> simp [*]

lemma read_depth_of_ok {f : Nat} {d : Int} {l : List Byte}
    (h : (read f d l).err = none) : (read f d l).depth = d := by
  have hb := (bal_all f).1 d l
  have h3 := hb.2.2 h
  have h2 := hb.2.1
  omega

lemma read_core_depth_of_ok {f : Nat} {d : Int} {l : List Byte}
    (h : (read_core f d l).err = none) : (read_core f d l).depth = d := by
  have hb := (bal_all f).2.1 d l
  have h3 := hb.2.2 h
  have h2 := hb.2.1
  omega

lemma nFlush_append (a b : List Event) : nFlush (a ++ b) = nFlush a + nFlush b := by
  simp [nFlush, List.count_append]

lemma nFlush_uint64_result (d : Int) (l : List Byte) (ht : Bool) (tg : Nat) :
    nFlush (uint64_result d l ht tg).events = 0 := by
  unfold uint64_result
  split <;> rfl

lemma nFlush_int64_result (d : Int) (l : List Byte) (ht : Bool) (tg : Nat) :
    nFlush (int64_result d l ht tg).events = 0 := by
  unfold int64_result
  split <;> rfl

lemma nFlush_byte_string_result (d : Int) (l : List Byte) (ht : Bool) (tg : Nat) :
    nFlush (byte_string_result d l ht tg).events = 0 := by
  unfold byte_string_result
  repeat' split
  all_goals rfl

lemma nFlush_text_string_result (d : Int) (l : List Byte) (ht : Bool) (tg : Nat) :
    nFlush (text_string_result d l ht tg).events = 0 := by
  unfold text_string_result
  split <;> rfl

lemma nFlush_decimal_fraction_result (d : Int) (l : List Byte) :
    nFlush (decimal_fraction_result d l).events = 0 := by
  unfold decimal_fraction_result
  split <;> rfl

lemma nFlush_simple_result (d : Int) (l : List Byte) (ht : Bool) (tg : Nat) :
    nFlush (simple_result d l ht tg).events = 0 := by
  unfold simple_result
  repeat' split
  all_goals rfl

lemma nFlush_cont_result {b en : Event} (hb : b ≠ Event.flush) (he : en ≠ Event.flush)
    (cb : Bool) {r : ReadResult} (h : nFlush r.events = 0) :
    nFlush (cont_result b en cb r).events = 0 := by
  obtain ⟨ev, rest, dep, err⟩ := r
  simp only [nFlush] at h ⊢
  cases err with
  | some e => simp [cont_result, List.count_cons, hb, h]
  | none => simp [cont_result, List.count_append, List.count_cons, hb, he, h]

/-- The joint flush-count invariant, by induction on fuel: the dispatch
switch and the container loops never emit `flush` (the loops run at
depth at least 1); a full `read` call emits exactly one trailing flush
when it succeeds at depth 0, and none otherwise. -/
lemma flush_all (fuel : Nat) :
    (∀ d l, (0:Int) ≤ d →
      ((read fuel d l).err = none →
        nFlush (read fuel d l).events = if d = 0 then 1 else 0) ∧
      ((read fuel d l).err ≠ none → nFlush (read fuel d l).events = 0)) ∧
    (∀ d l, (0:Int) ≤ d → nFlush (read_core fuel d l).events = 0) ∧
    (∀ d l ht tg, (0:Int) ≤ d → nFlush (dispatch fuel d l ht tg).events = 0) ∧
    (∀ n d l, (1:Int) ≤ d → nFlush (read_definite_array_items fuel n d l).events = 0) ∧
    (∀ d l, (1:Int) ≤ d → nFlush (read_indefinite_array_items fuel d l).events = 0) ∧
    (∀ n d l, (1:Int) ≤ d → nFlush (read_definite_map_items fuel n d l).events = 0) ∧
    (∀ d l, (1:Int) ≤ d → nFlush (read_indefinite_map_items fuel d l).events = 0) := by
  induction fuel with
  | zero =>
    refine ⟨fun d l hd => ⟨fun h => ?_, fun h => ?_⟩, fun d l hd => ?_,
      fun d l ht tg hd => ?_, fun n d l hd => ?_, fun d l hd => ?_, fun n d l hd => ?_,
      fun d l hd => ?_⟩
    · simp [read] at h
    · simp [read, nFlush]
    · simp [read_core, nFlush]
    · simp [dispatch, nFlush]
    · simp [read_definite_array_items, nFlush]
    · simp [read_indefinite_array_items, nFlush]
    · simp [read_definite_map_items, nFlush]
    · simp [read_indefinite_map_items, nFlush]
  | succ f ih =>
    obtain ⟨ihR, ihC, ihD, ihAN, ihAI, ihMN, ihMI⟩ := ih
    have hchild0 : ∀ d l, (1:Int) ≤ d → nFlush (read f d l).events = 0 := by
      intro d l hd
      rcases hre : (read f d l).err with _ | e
      · have h := (ihR d l (by omega)).1 hre
        rw [if_neg (by omega)] at h
        exact h
      · exact (ihR d l (by omega)).2 (by simp [hre])
    refine ⟨?_, ?_, ?_, ?_, ?_, ?_, ?_⟩
    · intro d l hd
      rw [read_succ]
      constructor
      · intro hok
        rw [flush_if_done_err] at hok
        rw [flush_if_done_events, nFlush_append, ihC d l hd]
        have hdep : (read_core f d l).depth = d := read_core_depth_of_ok hok
        rw [hok, hdep]
        by_cases h0 : d = 0
        · simp [h0, nFlush]
        · simp [h0, nFlush]
      · intro hne
        rw [flush_if_done_err] at hne
        rw [flush_if_done_events, nFlush_append, ihC d l hd]
        simp [hne, nFlush]
    · intro d l hd
      unfold read_core
      split
      · cases l with
        | nil => rfl
        | cons c r1 => exact ihD d r1 true (c % 32) hd
      · exact ihD d l false 0 hd
    · intro d l ht tg hd
      unfold dispatch
      split
      · exact nFlush_uint64_result d l ht tg
      · split
        · exact nFlush_int64_result d l ht tg
        · split
          · exact nFlush_byte_string_result d l ht tg
          · split
            · exact nFlush_text_string_result d l ht tg
            · split
              · split
                · exact nFlush_decimal_fraction_result d l
                · split
                  · exact nFlush_cont_result (by simp) (by simp) _
                      (ihAI (d + 1) l.tail (by omega))
                  · split
                    · rfl
                    · exact nFlush_cont_result (by simp) (by simp) _
                        (ihAN _ (d + 1) _ (by omega))
              · split
                · split
                  · exact nFlush_cont_result (by simp) (by simp) _
                      (ihMI (d + 1) l.tail (by omega))
                  · split
                    · rfl
                    · exact nFlush_cont_result (by simp) (by simp) _
                        (ihMN _ (d + 1) _ (by omega))
                · split
                  · rfl
                  · exact nFlush_simple_result d l ht tg
    · intro n d l hd
      cases n with
      | zero =>
        simp only [read_definite_array_items]
        rfl
      | succ m =>
        simp only [read_definite_array_items]
        split
        · exact hchild0 d l hd
        · rename_i heq
          have hdep : (read f d l).depth = d := read_depth_of_ok heq
          rw [nFlush_append, hchild0 d l hd, ihAN m _ _ (by omega)]
    · intro d l hd
      simp only [read_indefinite_array_items]
      split
      · rfl
      · split
        · exact hchild0 d l hd
        · rename_i heq
          have hdep : (read f d l).depth = d := read_depth_of_ok heq
          split
          · exact hchild0 d l hd
          · rw [nFlush_append, hchild0 d l hd, ihAI _ _ (by omega)]
    · intro n d l hd
      cases n with
      | zero =>
        simp only [read_definite_map_items]
        rfl
      | succ m =>
        simp only [read_definite_map_items]
        obtain ⟨hc1, hc2, hc3⟩ := parse_name_counts l
        split
        · exact hc3
        · split
          · rw [nFlush_append, hc3, hchild0 d _ hd]
          · rename_i heq
            have hdep : (read f d (parse_name l).rest).depth = d := read_depth_of_ok heq
            rw [nFlush_append, nFlush_append, hc3, hchild0 d _ hd, ihMN m _ _ (by omega)]
    · intro d l hd
      simp only [read_indefinite_map_items]
      obtain ⟨hc1, hc2, hc3⟩ := parse_name_counts l
      split
      · rfl
      · split
        · exact hc3
        · split
          · rw [nFlush_append, hc3, hchild0 d _ hd]
          · rename_i heq
            have hdep : (read f d (parse_name l).rest).depth = d := read_depth_of_ok heq
            rw [nFlush_append, nFlush_append, hc3, hchild0 d _ hd, ihMI _ _ (by omega)]


lemma takeExact_append (a b : List Byte) : takeExact a.length (a ++ b) = some (a, b) := by
  unfold takeExact
  rw [if_pos (by simp)]
  rw [List.take_left, List.drop_left]

lemma beNat_be8 {u : Nat} (h : u < 2 ^ 64) : beNat (be8 u) = u := by
  simp [beNat, be8, List.foldl_cons, List.foldl_nil]
  omega

lemma get_uint64_value_arg8 (b : Byte) (u : Nat) (r : List Byte)
    (hb : b % 32 = 27) (hu : u < 2 ^ 64) :
    get_uint64_value (b :: (be8 u ++ r)) = .ok (u, r) := by
  have h1 : takeExact 8 (be8 u ++ r) = some (be8 u, r) := by
    have h := takeExact_append (be8 u) r
    simpa [be8] using h
  unfold get_uint64_value
  simp [hb, h1, beNat_be8 hu]

lemma parse_df_int_encode (v : Int) (r : List Byte)
    (h1 : -(2 ^ 63) ≤ v) (h2 : v < 2 ^ 64) :
    parse_df_int (encodeInt v ++ r) = .ok (v, r) := by
  unfold encodeInt
  by_cases hv : 0 ≤ v
  · rw [if_pos hv]
    have hu : v.toNat < 2 ^ 64 := by omega
    have hg := get_uint64_value_arg8 0x1b v.toNat r (by decide) hu
    simp [parse_df_int, peek, get_major_type, hg, Int.toNat_of_nonneg hv]
  · rw [if_neg hv]
    have hu : (-1 - v).toNat < 2 ^ 64 := by omega
    have hu2 : ¬ (2 ^ 63 - 1 < (-1 - v).toNat) := by omega
    have hg := get_uint64_value_arg8 0x3b (-1 - v).toNat r (by decide) hu
    simp [parse_df_int, get_int64_value, peek, get_major_type, hg, hu2]
    rw [if_neg (by omega)]
    simp
    omega

lemma garads_encode (e m : Int) (r : List Byte)
    (he1 : -(2 ^ 63) ≤ e) (he2 : e < 2 ^ 64) (hm1 : -(2 ^ 63) ≤ m) (hm2 : m < 2 ^ 64) :
    get_array_as_decimal_string (0x82 :: (encodeInt e ++ (encodeInt m ++ r))) =
      .ok (render_decimal_fraction e m, r) := by
  have h1 := parse_df_int_encode e (encodeInt m ++ r) he1 he2
  have h2 := parse_df_int_encode m r hm1 hm2
  have hlen : get_length (0x82 :: (encodeInt e ++ (encodeInt m ++ r))) =
      .ok (2, encodeInt e ++ (encodeInt m ++ r)) := rfl
  unfold get_array_as_decimal_string
  simp [hlen, h1, h2, get_major_type]

/-- C1: a break byte (0xff) dispatched as an item's initial byte outside an
indefinite container hits no case of the major-type-7 `switch (info)` (no
`case 0x1f`, no default): `read` emits no value event, sets no error code —
in particular not `unexpected_break` as the specification requires — does
not consume the byte, and at depth 0 still invokes `handler_.flush()`. -/
theorem break_byte_silently_ignored (fuel : Nat) :
    read (fuel + 3) 0 [0xff] = ⟨[Event.flush], [0xff], 0, none⟩ := by
  have hcore : read_core (fuel + 2) 0 [0xff] = ⟨[], [0xff], 0, none⟩ := by
    simp [read_core, dispatch, simple_result, peek, get_major_type,
      get_additional_information_value]
  rw [read_succ, hcore]
  rfl

/-- C2 (counterexample): for input `d8 01 00` — a semantic-tag header with
additional info 24 whose 1-byte argument is 1 (tag 1 = epoch_time),
wrapping the unsigned integer 0 — the claim predicts that the whole 2-byte
tag header is consumed and tag value 1 recorded, i.e.
`uint64_value(0, epoch_time)` with all three bytes consumed.  The code
consumes only `0xd8`, records the additional-info field 24 as the tag,
dispatches on the argument byte `0x01` as if it were the tagged item, and
emits `uint64_value(1, none)` leaving `0x00` unread. -/
theorem tag_header_counterexample :
    read 5 0 [0xd8, 0x01, 0x00] =
      ⟨[Event.uint64_value 1 .none, Event.flush], [0x00], 0, none⟩ := by decide

/-- C2 (amended): when the next item is a semantic tag, `read` consumes
exactly one byte — the tag's initial byte `c` — and records its 5-bit
additional-info field `get_additional_information_value(c)` as the tag
value (not the decoded argument); any 1/2/4/8 argument bytes of the tag
header are left in the stream for the subsequent dispatch. -/
theorem tag_capture_one_byte (fuel : Nat) (d : Int) (c : Byte) (l : List Byte)
    (h : get_major_type c = 6) :
    read (fuel + 2) d (c :: l) =
      flush_if_done (dispatch fuel d l true (get_additional_information_value c)) := by
  have hpk : peek (c :: l) = c := rfl
  have hcore : read_core (fuel + 1) d (c :: l) =
      dispatch fuel d l true (get_additional_information_value c) := by
    simp [read_core, hpk, h, get_additional_information_value]
  rw [read_succ, hcore]

theorem tag_capture_one_byte_witness :
    read 4 0 [0xd8, 0x01] = flush_if_done (dispatch 2 0 [0x01] true 24) := by
  exact tag_capture_one_byte 2 0 0xd8 [0x01] (by decide)

/-- C3: a 2-element array item preceded by semantic tag 4 produces exactly
one `string_value` event with the `decimal_fraction` annotation and no
`begin_array`/`end_array` events: whenever the decimal-string helper
succeeds with `s`, the events of `read` are `[string_value s
decimal_fraction]` (plus the trailing flush at depth 0); and on a
2-element array of integer children the helper renders exactly
`mantissa × 10^exponent` as a decimal string per §4.4. -/
theorem tag4_decimal_fraction :
    (∀ fuel d l s r, get_major_type (peek l) = 4 →
      get_array_as_decimal_string l = .ok (s, r) →
      read (fuel + 3) d (0xc4 :: l) =
        flush_if_done ⟨[Event.string_value s .decimal_fraction], r, d, none⟩) ∧
    (∀ e m r, -(2 ^ 63) ≤ e → e < 2 ^ 64 → -(2 ^ 63) ≤ m → m < 2 ^ 64 →
      get_array_as_decimal_string (0x82 :: (encodeInt e ++ (encodeInt m ++ r))) =
        .ok (render_decimal_fraction e m, r)) := by
  constructor
  · intro fuel d l s r hmaj hgar
    have hpk : get_major_type (peek (0xc4 :: l)) = 6 := by
      simp [peek, get_major_type]
    have hcore : read_core (fuel + 2) d (0xc4 :: l) =
        ⟨[Event.string_value s .decimal_fraction], r, d, none⟩ := by
      simp [read_core, dispatch, decimal_fraction_result, hpk, hmaj, hgar]
    rw [read_succ, hcore]
  · intro e m r he1 he2 hm1 hm2
    exact garads_encode e m r he1 he2 hm1 hm2

theorem tag4_decimal_fraction_witness :
    read 3 0 [0xc4, 0x82, 0x21, 0x19, 0x6a, 0xb3] =
      ⟨[Event.string_value "273.15" .decimal_fraction, Event.flush], [], 0, none⟩ := by
  have h := tag4_decimal_fraction.1 0 0 [0x82, 0x21, 0x19, 0x6a, 0xb3] "273.15" []
    (by decide) (by decide)
  exact h.trans (by decide)

/-- C4: the trailing `if (nesting_depth_ == 0) handler_.flush();` runs
exactly when the nesting counter is zero: an error-free `read` at depth 0
ends with exactly one flush (the final event, occurring nowhere earlier),
and an error-free `read` at depth ≥ 1 — i.e. a recursive call made inside
a container — emits no flush at all. -/
theorem flush_iff_depth_zero (fuel : Nat) (d : Int) (l : List Byte) (hd : 0 ≤ d)
    (hok : (read fuel d l).err = none) :
    (d = 0 → ∃ es, (read fuel d l).events = es ++ [Event.flush] ∧ Event.flush ∉ es) ∧
    (1 ≤ d → Event.flush ∉ (read fuel d l).events) := by
  cases fuel with
  | zero => simp [read] at hok
  | succ f =>
    rw [read_succ] at hok ⊢
    rw [flush_if_done_err] at hok
    have hdep := read_core_depth_of_ok hok
    have hc := (flush_all f).2.1 d l hd
    constructor
    · intro h0
      refine ⟨(read_core f d l).events, ?_, ?_⟩
      · rw [flush_if_done_events, hok, hdep, h0]
        simp
      · exact List.count_eq_zero.mp hc
    · intro h1
      rw [flush_if_done_events, hok, hdep,
        if_neg (fun hx => absurd hx.2 (by omega : ¬d = 0)), List.append_nil]
      exact List.count_eq_zero.mp hc

theorem flush_iff_depth_zero_witness :
    ∃ es, (read 3 0 [0x00]).events = es ++ [Event.flush] ∧ Event.flush ∉ es := by
  exact (flush_iff_depth_zero 3 0 [0x00] (by decide) (by decide)).1 rfl

/-- C5: every failing decoding step short-circuits `read` — each error path
returns before any further handler call, so an errored `read` (from any
non-negative nesting depth) in particular never reaches the trailing
`handler_.flush()`: its event trace contains no flush event. -/
theorem error_short_circuit_no_flush (fuel : Nat) (d : Int) (l : List Byte) (hd : 0 ≤ d)
    (he : (read fuel d l).err ≠ none) : Event.flush ∉ (read fuel d l).events := by
  have h := ((flush_all fuel).1 d l hd).2 he
  exact List.count_eq_zero.mp h

theorem error_short_circuit_no_flush_witness :
    Event.flush ∉ (read 3 0 [0x19, 0x01]).events := by
  exact error_short_circuit_no_flush 3 0 [0x19, 0x01] (by decide) (by decide)

/-- C6: a byte-string item preceded by semantic tag 2 (resp. 3) is emitted
as exactly one `bignum_value` event whose text is `bignum_dump` of sign +1
(resp. -1) and the payload as big-endian magnitude — the exact decimal
string of the signed arbitrary-precision integer. -/
theorem bignum_tag_event (fuel : Nat) (d : Int) (l v r : List Byte)
    (hmaj : get_major_type (peek l) = 2)
    (hbs : get_byte_string l = .ok (v, r)) :
    read (fuel + 3) d (0xc2 :: l) =
      flush_if_done ⟨[Event.bignum_value (bignum_dump 1 v)], r, d, none⟩ ∧
    read (fuel + 3) d (0xc3 :: l) =
      flush_if_done ⟨[Event.bignum_value (bignum_dump (-1) v)], r, d, none⟩ := by
  constructor
  · have hpk : get_major_type (peek (0xc2 :: l)) = 6 := by
      simp [peek, get_major_type]
    have hcore : read_core (fuel + 2) d (0xc2 :: l) =
        ⟨[Event.bignum_value (bignum_dump 1 v)], r, d, none⟩ := by
      simp [read_core, dispatch, byte_string_result, hpk, hmaj, hbs]
    rw [read_succ, hcore]
  · have hpk : get_major_type (peek (0xc3 :: l)) = 6 := by
      simp [peek, get_major_type]
    have hcore : read_core (fuel + 2) d (0xc3 :: l) =
        ⟨[Event.bignum_value (bignum_dump (-1) v)], r, d, none⟩ := by
      simp [read_core, dispatch, byte_string_result, hpk, hmaj, hbs]
    rw [read_succ, hcore]

theorem bignum_tag_event_witness :
    read 3 0 [0xc2, 0x49, 0x01, 0x00, 0x00, 0x00, 0x00, 0x00, 0x00, 0x00, 0x00] =
      ⟨[Event.bignum_value "18446744073709551616", Event.flush], [], 0, none⟩ := by
  have h := (bignum_tag_event 0 0
    [0x49, 0x01, 0x00, 0x00, 0x00, 0x00, 0x00, 0x00, 0x00, 0x00]
    [0x01, 0x00, 0x00, 0x00, 0x00, 0x00, 0x00, 0x00, 0x00] [] (by decide) (by decide)).1
  exact h.trans (by decide)

/-- C7: the nesting counter moves exactly with the container events: over
any `read` call (any outcome) the final depth equals the entry depth plus
the net number of begin events, end events never outnumber begin events,
an error-free run is balanced so the counter returns to its entry value —
zero at top level exactly when a top-level item has completed — and from a
non-negative entry depth the counter never becomes negative. -/
theorem nesting_depth_balanced (fuel : Nat) (d : Int) (l : List Byte) :
    nEnds (read fuel d l).events ≤ nBegins (read fuel d l).events ∧
    (read fuel d l).depth =
      d + (nBegins (read fuel d l).events : Int) - (nEnds (read fuel d l).events : Int) ∧
    ((read fuel d l).err = none → (read fuel d l).depth = d) ∧
    (0 ≤ d → 0 ≤ (read fuel d l).depth) := by
  have hb := (bal_all fuel).1 d l
  refine ⟨hb.1, hb.2.1, fun h => read_depth_of_ok h, fun h0 => ?_⟩
  have h1 := hb.1
  have h2 := hb.2.1
  omega

theorem nesting_depth_balanced_witness :
    (read 8 0 [0x81, 0x00]).depth = 0 ∧
    nEnds (read 8 0 [0x81, 0x00]).events ≤ nBegins (read 8 0 [0x81, 0x00]).events := by
  have h := nesting_depth_balanced 8 0 [0x81, 0x00]
  exact ⟨h.2.2.1 (by decide), h.1⟩

/-- C8 (counterexample): reading `18 7b` consumes both input bytes and
succeeds, yet `column_number()` still reports 1 — not the advanced byte
offset 3 that the claim requires — because `read` never updates
`column_`. -/
theorem column_number_counterexample :
    column_number (read_full 3 basic_cbor_reader_init 0 [0x18, 0x7b]).1 = 1 ∧
    (read_full 3 basic_cbor_reader_init 0 [0x18, 0x7b]).2.rest = [] ∧
    (read_full 3 basic_cbor_reader_init 0 [0x18, 0x7b]).2.err = none := by decide

/-- C8 (amended): `line_number()` always returns 1, and `column_number()`
always returns its value from before the call — hence always the initial
value 1, since the constructor sets `column_(1)` and no statement of
`read` assigns `column_`; the column is not an advancing byte offset. -/
theorem line_and_column_constant (fuel : Nat) (ctx : ReaderCtx) (d : Int) (l : List Byte) :
    line_number (read_full fuel ctx d l).1 = 1 ∧
    column_number (read_full fuel ctx d l).1 = column_number ctx :=
  ⟨rfl, rfl⟩

/-- C9: when the next map key is not a text string, `parse_name` emits no
`name` event, sets no error code and consumes no input (its else branch is
entirely commented out), so the map loop's following `read` emits the next
item's events with no preceding name event. -/
theorem parse_name_non_text :
    (∀ l, get_major_type (peek l) ≠ 3 → parse_name l = ⟨[], l, none⟩) ∧
    (∀ fuel n d l, get_major_type (peek l) ≠ 3 →
      (read_definite_map_items (fuel + 1) (n + 1) d l).events =
        (read fuel d l).events ++
          (if (read fuel d l).err = none then
            (read_definite_map_items fuel n (read fuel d l).depth (read fuel d l).rest).events
          else [])) := by
  have hpn : ∀ l, get_major_type (peek l) ≠ 3 → parse_name l = ⟨[], l, none⟩ := by
    intro l h
    unfold parse_name
    rw [if_neg h]
  refine ⟨hpn, ?_⟩
  intro fuel n d l h
  rcases he : (read fuel d l).err with _ | e <;>
    simp [read_definite_map_items, hpn l h, he]

theorem parse_name_non_text_witness :
    parse_name [0x01] = ⟨[], [0x01], none⟩ ∧
    (read_definite_map_items 3 1 1 [0x01]).events =
      (read 2 1 [0x01]).events ++
        (if (read 2 1 [0x01]).err = none then
          (read_definite_map_items 2 0 (read 2 1 [0x01]).depth (read 2 1 [0x01]).rest).events
        else []) := by
  exact ⟨parse_name_non_text.1 [0x01] (by decide),
    parse_name_non_text.2 2 0 1 [0x01] (by decide)⟩

/-- C10: a simple item (major type 7) whose additional-info value is not
one of 20, 21, 22, 23, 25, 26, 27 hits no case of the `switch (info)`:
`read` returns with no value event, no error code and the initial byte not
consumed, and at nesting depth 0 the trailing `handler_.flush()` still
runs. -/
theorem unhandled_simple_noop (fuel : Nat) (d : Int) (b : Byte) (l : List Byte)
    (hmaj : get_major_type b = 7)
    (hinfo : get_additional_information_value b ∉ ([20, 21, 22, 23, 25, 26, 27] : List Nat)) :
    read (fuel + 3) d (b :: l) =
      ⟨if d = 0 then [Event.flush] else [], b :: l, d, none⟩ := by
  have hs : ∀ x, get_additional_information_value b = x →
      x ∈ ([20, 21, 22, 23, 25, 26, 27] : List Nat) → False := by
    intro x hx hmem
    exact hinfo (hx ▸ hmem)
  have h20 : get_additional_information_value b ≠ 20 := fun hx => hs _ hx (by decide)
  have h21 : get_additional_information_value b ≠ 21 := fun hx => hs _ hx (by decide)
  have h22 : get_additional_information_value b ≠ 22 := fun hx => hs _ hx (by decide)
  have h23 : get_additional_information_value b ≠ 23 := fun hx => hs _ hx (by decide)
  have h25 : get_additional_information_value b ≠ 25 := fun hx => hs _ hx (by decide)
  have h26 : get_additional_information_value b ≠ 26 := fun hx => hs _ hx (by decide)
  have h27 : get_additional_information_value b ≠ 27 := fun hx => hs _ hx (by decide)
  have hpk : peek (b :: l) = b := rfl
  have hcore : read_core (fuel + 2) d (b :: l) = ⟨[], b :: l, d, none⟩ := by
    simp [read_core, dispatch, simple_result, hpk, hmaj, h20, h21, h22, h23, h25, h26, h27]
  rw [read_succ, hcore]
  by_cases h0 : d = 0 <;> simp [flush_if_done, h0]

theorem unhandled_simple_noop_witness :
    read 3 0 [0xf8] = ⟨[Event.flush], [0xf8], 0, none⟩ := by
  have h := unhandled_simple_noop 0 0 0xf8 [] (by decide) (by decide)
  simpa using h

end Cbor
